import Mathlib

/-!
Shallow embedding of `scripts/dat-converter.py`, a script that walks a tree
of elevation directories (`elev-40` … `elev90`), decodes each measurement
file as big-endian 16-bit PCM, extracts the 128-sample window starting at
offset 40, normalises it by 32767, pairs left/right channel files by
filename, and serialises all records as `[elev f32][azi f32][samples f32]`.

Modelling conventions:
* bytes are `Nat` (values `0 ≤ b < 256` in real files);
* float32 arithmetic is modelled as exact division in `ℚ`;
* the serialised output is a list of `ℚ`, one per 4-byte float32 field;
* fallible operations (`os.listdir`, `open`, `struct.unpack`,
  `re.findall(...)[0]`, `int(...)`) return `Except String`.
-/

set_option maxRecDepth 100000

deriving instance DecidableEq for Except

namespace DatConverter

/-- `sample_size = 128` from the script. -/
def sample_size : Nat := 128

/-- One byte of a file (`0 ≤ b < 256` in real data; modelled as `Nat`). -/
abbrev Byte := Nat

/-- `struct.unpack(">h", bytes([b0, b1]))[0]`: big-endian signed 16-bit. -/
def decodePair (b0 b1 : Byte) : Int :=
  let v : Int := (b0 : Int) * 256 + (b1 : Int)
  if 32768 ≤ v then v - 65536 else v

/-- The decode loop
`for j in range(0, len(raw_data), 2): struct.unpack(">h", raw_data[j:j+2])`.
On an odd-length buffer the final slice `raw_data[j:j+2]` holds a single
byte and `struct.unpack(">h", ...)` raises `struct.error`. -/
def decodeBytes : List Byte → Except String (List Int)
  | [] => .ok []
  | [_] => .error "struct.error"
  | b0 :: b1 :: rest => (decodeBytes rest).map (fun t => decodePair b0 b1 :: t)

/-- Total pairwise decoder; agrees with `decodeBytes` on even-length input. -/
def decodeEven : List Byte → List Int
  | b0 :: b1 :: rest => decodePair b0 b1 :: decodeEven rest
  | _ => []

/-- The lazy part `(.*?)a` of the pattern `r"e(.*?)a"`: consume the shortest
run of non-newline characters up to the next `a` (`.` does not cross a
newline); `none` when no `a` follows. Returns the capture and the suffix
after the `a`. -/
def lazyToA : List Char → Option (List Char × List Char)
  | [] => none
  | c :: cs =>
    if c = 'a' then some ([], cs)
    else if c = '\n' then none
    else
      match lazyToA cs with
      | some (cap, rest) => some (c :: cap, rest)
      | none => none

/-- Recursion worker for `findallEA`. The fuel only bounds the recursion
depth: every step consumes at least one character, so `l.length` fuel is
always sufficient and never alters the result. -/
def findallEAAux : Nat → List Char → List (List Char)
  | 0, _ => []
  | _, [] => []
  | fuel + 1, c :: cs =>
    if c = 'e' then
      match lazyToA cs with
      | some (cap, rest) => cap :: findallEAAux fuel rest
      | none => findallEAAux fuel cs
    else findallEAAux fuel cs

/-- `re.findall(r"e(.*?)a", s)`: left-to-right, non-overlapping, lazy
matches; each element is the text captured between an `e` and the first
following `a`; a failed attempt at some `e` resumes scanning at the next
character. -/
def findallEA (l : List Char) : List (List Char) := findallEAAux l.length l

/-- Python `lst[0]`, raising `IndexError` on an empty list. -/
def headE {α : Type} : List α → Except String α
  | [] => .error "IndexError"
  | x :: _ => .ok x

/-- ASCII decimal digit test. -/
def isDigitChar (c : Char) : Bool := '0' ≤ c && c ≤ '9'

/-- Value of a digit string (most significant first). -/
def digitsToNat (l : List Char) : Nat :=
  l.foldl (fun acc c => 10 * acc + (c.toNat - 48)) 0

/-- Python `int(s)` on the strings this script can feed it: an optional
sign followed by at least one decimal digit; anything else raises
`ValueError`. (Python additionally strips whitespace and allows `_`
separators; filenames matched by the pattern never produce those here.) -/
def pyInt (l : List Char) : Except String Int :=
  match l with
  | '-' :: rest =>
    if !rest.isEmpty && rest.all isDigitChar then .ok (-(digitsToNat rest : Int))
    else .error "ValueError"
  | '+' :: rest =>
    if !rest.isEmpty && rest.all isDigitChar then .ok (digitsToNat rest : Int)
    else .error "ValueError"
  | _ =>
    if !l.isEmpty && l.all isDigitChar then .ok (digitsToNat l : Int)
    else .error "ValueError"

/-- `filename.startswith("L")`: the first character is `L`. -/
def startsWithL : List Char → Bool
  | [] => false
  | c :: _ => c = 'L'

/-- `filename.replace("L", "R", 1)`: replace the first occurrence of `L`. -/
def replaceFirstL : List Char → List Char
  | [] => []
  | c :: cs => if c = 'L' then 'R' :: cs else c :: replaceFirstL cs

/-- Python slice `l[a:b]` for `0 ≤ a ≤ b`. -/
def pySlice (l : List Int) (a b : Nat) : List Int := (l.drop a).take (b - a)

/-- `convert_int_to_float`: divide every sample by `np.iinfo(np.int16).max
= 32767`. The float32 arithmetic of the source is modelled as exact
division in `ℚ`. -/
def convert_int_to_float (data : List Int) : List ℚ :=
  data.map (fun s : Int => (s : ℚ) / 32767)

/-- One accumulated triple `[i, int(azi), convert_int_to_float(...)]`. -/
structure Record where
  elev : Int
  azi : Int
  samples : List ℚ
deriving DecidableEq, Repr

/-- One directory entry: a name, whether it is a regular file, and its
bytes (meaningful only when `isFile`). -/
structure Entry where
  name : String
  isFile : Bool
  content : List Byte
deriving DecidableEq, Repr

/-- The directory tree the script walks: directories with their entries. -/
structure FS where
  dirs : List (String × List Entry)
deriving DecidableEq, Repr

/-- `os.listdir(path)`: the entries of the directory, or
`FileNotFoundError` when the directory does not exist. -/
def listdir (fs : FS) (path : String) : Except String (List Entry) :=
  match fs.dirs.find? (fun p => p.1 == path) with
  | none => .error "FileNotFoundError"
  | some p => .ok p.2

/-- `open(os.path.join(path, n), "rb").read()`: the bytes of the named
regular file, `FileNotFoundError` when absent, `IsADirectoryError` when
the entry is not a regular file. -/
def readFile (fs : FS) (path n : String) : Except String (List Byte) :=
  match listdir fs path with
  | .error m => .error m
  | .ok es =>
    match es.find? (fun e => e.name == n) with
    | none => .error "FileNotFoundError"
    | some e => if e.isFile then .ok e.content else .error "IsADirectoryError"

/-- The body of the scan loop for one directory entry, in the source's
order of effects: skip non-files; read the bytes; `re.findall(pattern,
filename)[0]`; the decode loop; `int(azi)`; then, for a filename starting
with `L`, append the left record, open the `replace("L", "R", 1)`
counterpart, re-run findall on the ORIGINAL left filename, decode, and
append the right record; filenames starting with `R` (or anything else)
append nothing. -/
def processFile (fs : FS) (folder : String) (i : Int) (e : Entry) :
    Except String (List Record) :=
  if e.isFile then
    match headE (findallEA e.name.data) with
    | .error m => .error m
    | .ok aziStr =>
      match decodeBytes e.content with
      | .error m => .error m
      | .ok encoded =>
        match pyInt aziStr with
        | .error m => .error m
        | .ok azi =>
          if startsWithL e.name.data then
            match readFile fs folder (String.mk (replaceFirstL e.name.data)) with
            | .error m => .error m
            | .ok raw2 =>
              match headE (findallEA e.name.data) with
              | .error m => .error m
              | .ok aziStr2 =>
                match decodeBytes raw2 with
                | .error m => .error m
                | .ok encoded2 =>
                  match pyInt aziStr2 with
                  | .error m => .error m
                  | .ok azi2 =>
                    .ok [⟨i, azi, convert_int_to_float
                            (pySlice encoded 40 (sample_size + 40))⟩,
                         ⟨i, azi2, convert_int_to_float
                            (pySlice encoded2 40 (sample_size + 40))⟩]
          else .ok []
  else .ok []

/-- `for filename in os.listdir(folder_path)` over a list of entries. -/
def processEntries (fs : FS) (folder : String) (i : Int) :
    List Entry → Except String (List Record)
  | [] => .ok []
  | e :: es =>
    match processFile fs folder i e with
    | .error m => .error m
    | .ok r1 =>
      match processEntries fs folder i es with
      | .error m => .error m
      | .ok r2 => .ok (r1 ++ r2)

/-- One iteration of the outer loop: `folder_path = 'elev' + str(i)`,
then scan its listing. -/
def processElev (fs : FS) (i : Int) : Except String (List Record) :=
  match listdir fs ("elev" ++ toString i) with
  | .error m => .error m
  | .ok entries => processEntries fs ("elev" ++ toString i) i entries

/-- `number_range = [x for x in range(-40, 100, 10)]`. -/
def number_range : List Int := (List.range 14).map (fun k => -40 + 10 * (k : Int))

/-- The outer loop over a list of elevations. -/
def scanElevs (fs : FS) : List Int → Except String (List Record)
  | [] => .ok []
  | i :: is =>
    match processElev fs i with
    | .error m => .error m
    | .ok r1 =>
      match scanElevs fs is with
      | .error m => .error m
      | .ok r2 => .ok (r1 ++ r2)

/-- The whole traversal: `data_arrays` accumulated over `number_range`. -/
def runScan (fs : FS) : Except String (List Record) := scanElevs fs number_range

/-- `save_data_to_file`: for each record write elevation, azimuth and the
samples, each as a 4-byte float32 field (one `ℚ` models one field); no
header, count or terminator. -/
def save_data_to_file (recs : List Record) : List ℚ :=
  (recs.map (fun r => (r.elev : ℚ) :: (r.azi : ℚ) :: r.samples)).flatten

/-- The byte length of the serialised archive (4 bytes per float32 field). -/
def outputByteLength (recs : List Record) : Nat := 4 * (save_data_to_file recs).length

/-- The whole script: run the traversal, then (only on success) write the
archive in one final phase. -/
def runScript (fs : FS) : Except String (List ℚ) :=
  match runScan fs with
  | .error m => .error m
  | .ok recs => .ok (save_data_to_file recs)

/-- Regular files in a listing whose name starts with `L`. -/
def leftEntries (es : List Entry) : Nat :=
  (es.filter (fun e => e.isFile && startsWithL e.name.data)).length

/-- Left-channel regular files seen while traversing the given elevations. -/
def leftCountElevs (fs : FS) (is : List Int) : Nat :=
  (is.map (fun i =>
    match listdir fs ("elev" ++ toString i) with
    | .ok es => leftEntries es
    | .error _ => 0)).sum

/-- Left-channel regular files over the whole traversal. -/
def leftFileCount (fs : FS) : Nat := leftCountElevs fs number_range

/-- Every regular file of the tree holds at least 336 bytes, i.e. at
least 168 samples (40 offset + 128 window). -/
def allFilesLong (fs : FS) : Prop :=
  ∀ d ∈ fs.dirs, ∀ e ∈ d.2, e.isFile = true → 336 ≤ e.content.length

instance (fs : FS) : Decidable (allFilesLong fs) :=
  inferInstanceAs (Decidable
    (∀ d ∈ fs.dirs, ∀ e ∈ d.2, e.isFile = true → 336 ≤ e.content.length))

/-- A tree with every elevation directory present, all empty except the
one for `i0`, which holds `es`. -/
def fsWith (i0 : Int) (es : List Entry) : FS :=
  ⟨number_range.map (fun i => ("elev" ++ toString i, if i = i0 then es else []))⟩

/-! ### Basic lemmas about the decoder and the window -/

lemma decodeBytes_length : ∀ {l : List Byte} {s : List Int},
    decodeBytes l = .ok s → l.length = 2 * s.length
  | [], s, h => by
    simp only [decodeBytes, Except.ok.injEq] at h
    simp [← h]
  | [b], s, h => by
    simp [decodeBytes] at h
  | b0 :: b1 :: rest, s, h => by
    cases hr : decodeBytes rest with
    | error m =>
      simp only [decodeBytes, hr, Except.map] at h
      exact Except.noConfusion h
    | ok t =>
      simp only [decodeBytes, hr, Except.map, Except.ok.injEq] at h
      have ih := decodeBytes_length hr
      simp [← h, List.length_cons]
      omega

lemma decodeBytes_even : ∀ l : List Byte,
    l.length % 2 = 0 → decodeBytes l = .ok (decodeEven l)
  | [], _ => by simp [decodeBytes, decodeEven]
  | [b], h => by simp at h
  | b0 :: b1 :: rest, h => by
    have hr : rest.length % 2 = 0 := by
      simp [List.length_cons] at h
      omega
    simp [decodeBytes, decodeEven, decodeBytes_even rest hr, Except.map]

lemma decodeBytes_odd : ∀ l : List Byte,
    l.length % 2 = 1 → decodeBytes l = .error "struct.error"
  | [], h => by simp at h
  | [b], _ => by simp [decodeBytes]
  | b0 :: b1 :: rest, h => by
    have hr : rest.length % 2 = 1 := by
      simp [List.length_cons] at h
      omega
    simp [decodeBytes, decodeBytes_odd rest hr, Except.map]

lemma window_length (enc : List Int) :
    (convert_int_to_float (pySlice enc 40 (sample_size + 40))).length
      = min 128 (enc.length - 40) := by
  rw [convert_int_to_float, pySlice, List.length_map, List.length_take,
    List.length_drop]
  norm_num [sample_size]

/-! ### Lemmas about the modelled filesystem -/

lemma listdir_mem {fs : FS} {p : String} {es : List Entry}
    (h : listdir fs p = .ok es) : ∃ d ∈ fs.dirs, d.2 = es := by
  unfold listdir at h
  split at h
  · exact Except.noConfusion h
  · rename_i d hfind
    injection h with h
    exact ⟨d, List.mem_of_find?_eq_some hfind, h⟩

lemma readFile_spec {fs : FS} {p n : String} {c : List Byte}
    (h : readFile fs p n = .ok c) :
    ∃ d ∈ fs.dirs, ∃ e ∈ d.2, e.isFile = true ∧ e.content = c := by
  unfold readFile at h
  split at h
  · exact Except.noConfusion h
  · rename_i es hls
    split at h
    · exact Except.noConfusion h
    · rename_i e hfind
      split at h
      · rename_i hfile
        injection h with h
        obtain ⟨d, hd, hdes⟩ := listdir_mem hls
        refine ⟨d, hd, e, ?_, hfile, h⟩
        rw [hdes]
        exact List.mem_of_find?_eq_some hfind
      · exact Except.noConfusion h

lemma readFile_long {fs : FS} {p n : String} {c : List Byte}
    (hfs : allFilesLong fs) (h : readFile fs p n = .ok c) : 336 ≤ c.length := by
  obtain ⟨d, hd, e, he, hfile, hc⟩ := readFile_spec h
  rw [← hc]
  exact hfs d hd e he hfile

/-! ### Characterisation of the per-file loop body -/

lemma processFile_left_spec {fs : FS} {folder : String} {i : Int} {e : Entry}
    {recs : List Record}
    (hf : e.isFile = true) (hL : startsWithL e.name.data = true)
    (h : processFile fs folder i e = .ok recs) :
    ∃ aziStr azi enc raw2 enc2,
      headE (findallEA e.name.data) = .ok aziStr ∧
      pyInt aziStr = .ok azi ∧
      decodeBytes e.content = .ok enc ∧
      readFile fs folder (String.mk (replaceFirstL e.name.data)) = .ok raw2 ∧
      decodeBytes raw2 = .ok enc2 ∧
      recs = [⟨i, azi, convert_int_to_float (pySlice enc 40 (sample_size + 40))⟩,
              ⟨i, azi, convert_int_to_float (pySlice enc2 40 (sample_size + 40))⟩] := by
  unfold processFile at h
  rw [hf, hL] at h
  simp only [if_true] at h
  split at h
  · exact Except.noConfusion h
  · rename_i aziStr hfind
    split at h
    · exact Except.noConfusion h
    · rename_i enc hdec
      split at h
      · exact Except.noConfusion h
      · rename_i azi hint
        split at h
        · exact Except.noConfusion h
        · rename_i raw2 hread
          split at h
          · exact Except.noConfusion h
          · rename_i aziStr2 hfind2
            split at h
            · exact Except.noConfusion h
            · rename_i enc2 hdec2
              split at h
              · exact Except.noConfusion h
              · rename_i azi2 hint2
                injection h with h
                injection hfind2 with hfind2
                rw [← hfind2] at hint2
                rw [hint] at hint2
                injection hint2 with hint2
                rw [← hint2] at h
                exact ⟨aziStr, azi, enc, raw2, enc2, hfind, hint, hdec, hread,
                  hdec2, h.symm⟩

lemma processFile_notL_spec {fs : FS} {folder : String} {i : Int} {e : Entry}
    {recs : List Record}
    (hf : e.isFile = true) (hL : startsWithL e.name.data = false)
    (h : processFile fs folder i e = .ok recs) :
    recs = [] ∧ (∃ aziStr, headE (findallEA e.name.data) = .ok aziStr) ∧
      ∃ enc, decodeBytes e.content = .ok enc := by
  unfold processFile at h
  rw [hf, hL] at h
  simp only [if_true, Bool.false_eq_true, if_false] at h
  split at h
  · exact Except.noConfusion h
  · rename_i aziStr hfind
    split at h
    · exact Except.noConfusion h
    · rename_i enc hdec
      split at h
      · exact Except.noConfusion h
      · rename_i azi hint
        injection h with h
        exact ⟨h.symm, ⟨aziStr, hfind⟩, ⟨enc, hdec⟩⟩

lemma processFile_notFile {fs : FS} {folder : String} {i : Int} {e : Entry}
    (hf : e.isFile = false) : processFile fs folder i e = .ok [] := by
  unfold processFile
  rw [hf]
  simp

lemma processFile_ok_length {fs : FS} {folder : String} {i : Int} {e : Entry}
    {recs : List Record} (h : processFile fs folder i e = .ok recs) :
    recs.length = if e.isFile && startsWithL e.name.data then 2 else 0 := by
  by_cases hf : e.isFile = true
  · by_cases hL : startsWithL e.name.data = true
    · obtain ⟨_, _, _, _, _, _, _, _, _, _, hrecs⟩ := processFile_left_spec hf hL h
      simp [hf, hL, hrecs]
    · have hL2 : startsWithL e.name.data = false := by simpa using hL
      obtain ⟨hrecs, _, _⟩ := processFile_notL_spec hf hL2 h
      simp [hf, hL2, hrecs]
  · have hf2 : e.isFile = false := by simpa using hf
    rw [processFile_notFile hf2] at h
    injection h with h
    simp [hf2, ← h]

lemma processFile_samples {fs : FS} {folder : String} {i : Int} {e : Entry}
    {recs : List Record} (hfs : allFilesLong fs)
    (he : e.isFile = true → 336 ≤ e.content.length)
    (h : processFile fs folder i e = .ok recs) :
    ∀ r ∈ recs, r.samples.length = 128 := by
  by_cases hf : e.isFile = true
  · by_cases hL : startsWithL e.name.data = true
    · obtain ⟨aziStr, azi, enc, raw2, enc2, _, _, hdec, hread, hdec2, hrecs⟩ :=
        processFile_left_spec hf hL h
      have h1 : 168 ≤ enc.length := by
        have := decodeBytes_length hdec
        have := he hf
        omega
      have h2 : 168 ≤ enc2.length := by
        have := decodeBytes_length hdec2
        have := readFile_long hfs hread
        omega
      intro r hr
      rw [hrecs] at hr
      simp only [List.mem_cons, List.not_mem_nil, or_false] at hr
      rcases hr with hr | hr
      · rw [hr]
        simp only [window_length]
        omega
      · rw [hr]
        simp only [window_length]
        omega
    · have hL2 : startsWithL e.name.data = false := by simpa using hL
      obtain ⟨hrecs, _, _⟩ := processFile_notL_spec hf hL2 h
      rw [hrecs]
      simp
  · have hf2 : e.isFile = false := by simpa using hf
    rw [processFile_notFile hf2] at h
    injection h with h
    rw [← h]
    simp

/-! ### Lemmas about the directory and elevation loops -/

lemma processEntries_length {fs : FS} {folder : String} {i : Int} :
    ∀ {es : List Entry} {recs : List Record},
      processEntries fs folder i es = .ok recs →
      recs.length = 2 * leftEntries es := by
  intro es
  induction es with
  | nil =>
    intro recs h
    unfold processEntries at h
    injection h with h
    simp [← h, leftEntries]
  | cons e es ih =>
    intro recs h
    unfold processEntries at h
    split at h
    · exact Except.noConfusion h
    · rename_i r1 h1
      split at h
      · exact Except.noConfusion h
      · rename_i r2 h2
        injection h with h
        have hl1 := processFile_ok_length h1
        have hl2 := ih h2
        rw [← h]
        simp only [List.length_append, hl1, hl2, leftEntries, List.filter_cons]
        by_cases hp : (e.isFile && startsWithL e.name.data) = true
        · simp only [hp, if_true, List.length_cons]
          omega
        · have hp2 : (e.isFile && startsWithL e.name.data) = false := by simpa using hp
          simp only [hp2, Bool.false_eq_true, if_false]
          omega

lemma processEntries_samples {fs : FS} {folder : String} {i : Int}
    (hfs : allFilesLong fs) :
    ∀ {es : List Entry} {recs : List Record},
      (∀ e ∈ es, e.isFile = true → 336 ≤ e.content.length) →
      processEntries fs folder i es = .ok recs →
      ∀ r ∈ recs, r.samples.length = 128 := by
  intro es
  induction es with
  | nil =>
    intro recs _ h
    unfold processEntries at h
    injection h with h
    rw [← h]
    simp
  | cons e es ih =>
    intro recs hes h
    unfold processEntries at h
    split at h
    · exact Except.noConfusion h
    · rename_i r1 h1
      split at h
      · exact Except.noConfusion h
      · rename_i r2 h2
        injection h with h
        intro r hr
        rw [← h] at hr
        rcases List.mem_append.mp hr with hr | hr
        · exact processFile_samples hfs (hes e (by simp)) h1 r hr
        · exact ih (fun x hx => hes x (by simp [hx])) h2 r hr

lemma processElev_spec {fs : FS} {i : Int} {recs : List Record}
    (h : processElev fs i = .ok recs) :
    ∃ es, listdir fs ("elev" ++ toString i) = .ok es ∧
      processEntries fs ("elev" ++ toString i) i es = .ok recs := by
  unfold processElev at h
  split at h
  · exact Except.noConfusion h
  · rename_i es hls
    exact ⟨es, hls, h⟩

lemma scanElevs_length {fs : FS} :
    ∀ {is : List Int} {recs : List Record},
      scanElevs fs is = .ok recs → recs.length = 2 * leftCountElevs fs is := by
  intro is
  induction is with
  | nil =>
    intro recs h
    unfold scanElevs at h
    injection h with h
    simp [← h, leftCountElevs]
  | cons i is ih =>
    intro recs h
    unfold scanElevs at h
    split at h
    · exact Except.noConfusion h
    · rename_i r1 h1
      split at h
      · exact Except.noConfusion h
      · rename_i r2 h2
        injection h with h
        obtain ⟨es, hls, hpe⟩ := processElev_spec h1
        have hl1 := processEntries_length hpe
        have hl2 := ih h2
        rw [← h]
        simp only [List.length_append, hl1, hl2, leftCountElevs, List.map_cons,
          List.sum_cons, hls]
        omega

lemma scanElevs_samples {fs : FS} (hfs : allFilesLong fs) :
    ∀ {is : List Int} {recs : List Record},
      scanElevs fs is = .ok recs → ∀ r ∈ recs, r.samples.length = 128 := by
  intro is
  induction is with
  | nil =>
    intro recs h
    unfold scanElevs at h
    injection h with h
    rw [← h]
    simp
  | cons i is ih =>
    intro recs h
    unfold scanElevs at h
    split at h
    · exact Except.noConfusion h
    · rename_i r1 h1
      split at h
      · exact Except.noConfusion h
      · rename_i r2 h2
        injection h with h
        intro r hr
        rw [← h] at hr
        rcases List.mem_append.mp hr with hr | hr
        · obtain ⟨es, hls, hpe⟩ := processElev_spec h1
          obtain ⟨d, hd, hdes⟩ := listdir_mem hls
          have hes : ∀ e ∈ es, e.isFile = true → 336 ≤ e.content.length := by
            intro x hx
            rw [← hdes] at hx
            exact hfs d hd x hx
          exact processEntries_samples hfs hes hpe r hr
        · exact ih h2 r hr

lemma runScan_length {fs : FS} {recs : List Record}
    (h : runScan fs = .ok recs) : recs.length = 2 * leftFileCount fs :=
  scanElevs_length h

lemma runScan_samples {fs : FS} {recs : List Record} (hfs : allFilesLong fs)
    (h : runScan fs = .ok recs) : ∀ r ∈ recs, r.samples.length = 128 :=
  scanElevs_samples hfs h

/-! ### Lemmas about the serialiser -/

lemma save_length : ∀ recs : List Record,
    (save_data_to_file recs).length = (recs.map (fun r => 2 + r.samples.length)).sum
  | [] => by simp [save_data_to_file]
  | r :: recs => by
    have ih := save_length recs
    simp only [save_data_to_file, List.map_cons, List.flatten_cons,
      List.length_append, List.sum_cons] at ih ⊢
    simp [ih]
    omega

lemma save_length_128 {recs : List Record}
    (h : ∀ r ∈ recs, r.samples.length = 128) :
    (save_data_to_file recs).length = 130 * recs.length := by
  rw [save_length]
  induction recs with
  | nil => simp
  | cons r recs ih =>
    simp only [List.map_cons, List.sum_cons, List.length_cons]
    rw [h r (by simp), ih (fun x hx => h x (by simp [hx]))]
    ring

/-! ### Concrete directory trees used as test inputs -/

/-- The spec's example tree: the elevation-40 directory holds the left
file `Le40a90.bin` with 200 big-endian int16 samples (400 zero bytes)
and its right counterpart. -/
def fs1 : FS := fsWith 40
  [⟨"Le40a90.bin", true, List.replicate 400 0⟩,
   ⟨"Re40a90.bin", true, List.replicate 400 0⟩]

/-- A tree whose only file is a right-channel file holding one byte. -/
def fs3 : FS := fsWith 0 [⟨"Re0a0.bin", true, [5]⟩]

/-- A tree whose pair of files hold 100 bytes (50 samples) each. -/
def fs5 : FS := fsWith 0
  [⟨"Le0a0.bin", true, List.replicate 100 0⟩,
   ⟨"Re0a0.bin", true, List.replicate 100 0⟩]

/-- 336 zero bytes: exactly 168 samples, the minimum for a full window. -/
def w336 : List Byte := List.replicate 336 0

/-- A tree whose pair of files hold 336 bytes (168 samples) each. -/
def fsLong : FS := fsWith 0
  [⟨"Le0a0.bin", true, w336⟩, ⟨"Re0a0.bin", true, w336⟩]

/-- The records the converter produces on `fsLong`. -/
def recsLong : List Record :=
  [⟨0, 0, convert_int_to_float (pySlice (decodeEven w336) 40 (sample_size + 40))⟩,
   ⟨0, 0, convert_int_to_float (pySlice (decodeEven w336) 40 (sample_size + 40))⟩]

/-- A left entry with a 2-byte file, paired in `fs7`. -/
def eL7 : Entry := ⟨"Le0a0.bin", true, [0, 0]⟩

/-- A single directory holding the pair `Le0a0.bin` / `Re0a0.bin`. -/
def fs7 : FS := ⟨[("elev0", [eL7, ⟨"Re0a0.bin", true, [0, 0]⟩])]⟩

/-! ### The claims -/

/-- C1, counterexample: for the left file `Le40a90.bin` the emitted records
carry azimuth 40, not 90 as claimed. The pattern `e(.*?)a` captures the
text between the first `e` and the first following `a`, which in this
filename is `40` (the elevation digits), so both records of the pair read
`(elev, azi) = (40, 40)`. -/
theorem c1_counterexample :
    (runScan fs1).map (List.map (fun r => (r.elev, r.azi)))
      = .ok [(40, 40), (40, 40)] ∧ (40 : Int) ≠ 90 :=
  ⟨by decide, by decide⟩

/-- C1, amended: for a left-channel file named `Le40a90.bin` in the
elevation-40 directory containing 200 big-endian int16 samples, the
converter emits a record whose elevation field is 40, whose azimuth field
is 40 (the regex capture between `e` and the first following `a`), and
whose sample sequence is exactly the decoded samples at indices 40
through 167 each divided by 32767 — followed by the right-channel record
read from `Re40a90.bin`. -/
theorem c1_amended (fs : FS) (c cR : List Byte)
    (hc : c.length = 400) (hcR : cR.length % 2 = 0)
    (hread : readFile fs "elev40" "Re40a90.bin" = .ok cR) :
    processFile fs "elev40" 40 ⟨"Le40a90.bin", true, c⟩ =
      .ok [⟨40, 40, convert_int_to_float
              (pySlice (decodeEven c) 40 (sample_size + 40))⟩,
           ⟨40, 40, convert_int_to_float
              (pySlice (decodeEven cR) 40 (sample_size + 40))⟩] := by
  have h1 : decodeBytes c = .ok (decodeEven c) := decodeBytes_even c (by omega)
  have h2 : decodeBytes cR = .ok (decodeEven cR) := decodeBytes_even cR hcR
  have hfind : headE (findallEA ("Le40a90.bin" : String).data) = .ok ['4', '0'] :=
    by decide
  have hint : pyInt ['4', '0'] = .ok 40 := by decide
  have hsw : startsWithL ("Le40a90.bin" : String).data = true := by decide
  have hrep : String.mk (replaceFirstL ("Le40a90.bin" : String).data)
      = "Re40a90.bin" := by decide
  unfold processFile
  simp [hfind, hint, hsw, hrep, h1, h2, hread]

/-- C1, witness for the amended theorem at 400 zero bytes. -/
theorem c1_witness :
    processFile fs1 "elev40" 40 ⟨"Le40a90.bin", true, List.replicate 400 0⟩ =
      .ok [⟨40, 40, convert_int_to_float
              (pySlice (decodeEven (List.replicate 400 0)) 40 (sample_size + 40))⟩,
           ⟨40, 40, convert_int_to_float
              (pySlice (decodeEven (List.replicate 400 0)) 40 (sample_size + 40))⟩] :=
  c1_amended fs1 (List.replicate 400 0) (List.replicate 400 0)
    (by decide) (by decide) (by decide)

/-- C2, counterexample: on the odd-length buffer `[1, 2, 7]` the decoder
raises `struct.error` (the final one-byte slice cannot be unpacked); it
does NOT silently drop the trailing byte and return the decoded pairs. -/
theorem c2_counterexample :
    decodeBytes [1, 2, 7] = .error "struct.error" ∧
    decodeBytes [1, 2, 7] ≠ .ok [decodePair 1 2] :=
  ⟨by decide, by decide⟩

/-- C2, amended: on an odd-length buffer the decoder raises
`struct.error` — the range-step-2 loop makes the final slice one byte
long and `struct.unpack(">h", ...)` fails on it; on an even-length buffer
it decodes the 2-byte chunks sequentially, preserving order. -/
theorem c2_amended (l : List Byte) :
    (l.length % 2 = 1 → decodeBytes l = .error "struct.error") ∧
    (l.length % 2 = 0 → decodeBytes l = .ok (decodeEven l)) :=
  ⟨decodeBytes_odd l, decodeBytes_even l⟩

/-- C2, witness: the amended theorem at `[1, 2, 7]` and `[1, 2]`. -/
theorem c2_witness :
    decodeBytes [1, 2, 7] = .error "struct.error" ∧
    decodeBytes [1, 2] = .ok (decodeEven [1, 2]) :=
  ⟨(c2_amended [1, 2, 7]).1 (by decide), (c2_amended [1, 2]).2 (by decide)⟩

/-- C3, counterexample: a right-channel file is NOT skipped entirely.
With the single file `Re0a0.bin` holding one byte, the whole run aborts
with `struct.error` because the scan loop reads and decodes every regular
file before checking its first character; had the file been skipped, the
run would have produced the empty archive (as it does when the directory
is empty). -/
theorem c3_counterexample :
    runScan fs3 = .error "struct.error" ∧ runScan (fsWith 0 []) = .ok [] :=
  ⟨by decide, by decide⟩

/-- C3, amended: a regular file whose name does not start with `L`
contributes no record to the archive, but it is still opened, its name
pattern-parsed and its bytes decoded as a scan root: the loop body can
only succeed on it if `re.findall(pattern, filename)[0]` and the PCM
decode succeed. Right-channel records still enter the archive only via
their paired left-channel file. -/
theorem c3_amended (fs : FS) (folder : String) (i : Int) (e : Entry)
    (recs : List Record)
    (hf : e.isFile = true) (hL : startsWithL e.name.data = false)
    (h : processFile fs folder i e = .ok recs) :
    recs = [] ∧ (∃ aziStr, headE (findallEA e.name.data) = .ok aziStr) ∧
      ∃ enc, decodeBytes e.content = .ok enc :=
  processFile_notL_spec hf hL h

/-- C3, witness: the amended theorem on a 2-byte right-channel file. -/
theorem c3_witness :
    ([] : List Record) = [] ∧
    (∃ aziStr, headE (findallEA ("Re0a0.bin" : String).data) = .ok aziStr) ∧
    ∃ enc, decodeBytes [0, 0] = .ok enc :=
  c3_amended ⟨[]⟩ "elev0" 0 ⟨"Re0a0.bin", true, [0, 0]⟩ []
    (by decide) (by decide) (by decide)

/-- C4, counterexample: the decodable sample value -32768 (bytes
`0x80 0x00`) normalises to -32768/32767, which is strictly below -1, so
not every normalised output value lies in [-1, 1]. -/
theorem c4_counterexample :
    decodePair 128 0 = -32768 ∧
    convert_int_to_float [decodePair 128 0] = [-(32768 : ℚ) / 32767] ∧
    -(32768 : ℚ) / 32767 < -1 := by
  refine ⟨by decide, ?_, by norm_num⟩
  norm_num [convert_int_to_float, decodePair]

/-- C4, amended: each normalised value equals s / 32767 exactly (float32
rounding is abstracted to exact rational division), and lies in
[-32768/32767, 1]; for s ≥ -32767 it lies in [-1, 1], but int16 asymmetry
lets s = -32768 exceed -1 in magnitude. -/
theorem c4_amended (data : List Int)
    (h : ∀ s ∈ data, -32768 ≤ s ∧ s ≤ 32767) :
    ∀ q ∈ convert_int_to_float data,
      (∃ s ∈ data, q = (s : ℚ) / 32767) ∧
      -(32768 : ℚ) / 32767 ≤ q ∧ q ≤ 1 := by
  intro q hq
  rw [convert_int_to_float] at hq
  obtain ⟨s, hs, rfl⟩ := List.mem_map.mp hq
  obtain ⟨h1, h2⟩ := h s hs
  refine ⟨⟨s, hs, rfl⟩, ?_, ?_⟩
  · rw [div_le_div_iff_of_pos_right (by norm_num : (0 : ℚ) < 32767)]
    exact_mod_cast h1
  · rw [div_le_one (by norm_num : (0 : ℚ) < 32767)]
    exact_mod_cast h2

/-- C4, witness: the amended theorem at the sample -32767. -/
theorem c4_witness :
    (∃ s ∈ [(-32767 : Int), 0, 32767],
      ((-32767 : Int) : ℚ) / 32767 = (s : ℚ) / 32767) ∧
    -(32768 : ℚ) / 32767 ≤ ((-32767 : Int) : ℚ) / 32767 ∧
    ((-32767 : Int) : ℚ) / 32767 ≤ 1 :=
  c4_amended [(-32767 : Int), 0, 32767] (by decide)
    (((-32767 : Int) : ℚ) / 32767) (List.mem_map_of_mem _ (by decide))

/-- C5, counterexample: a directory tree the converter completes on whose
emitted records hold 10 samples each, not 128: its two 100-byte files
decode to 50 samples, and `encoded_data[40:168]` of a 50-element list has
10 elements. -/
theorem c5_counterexample :
    (runScan fs5).map (List.map (fun r => r.samples.length)) = .ok [10, 10] ∧
    (10 : Nat) ≠ 128 :=
  ⟨by decide, by decide⟩

/-- C5, amended: every record emitted into the archive contains exactly
128 samples, provided every regular file of the input tree holds at least
336 bytes (168 samples: the 40 offset plus the 128 window). -/
theorem c5_amended (fs : FS) (recs : List Record)
    (hlong : allFilesLong fs) (h : runScan fs = .ok recs) :
    ∀ r ∈ recs, r.samples.length = 128 :=
  runScan_samples hlong h

/-- C5, witness: the amended theorem on the tree of 336-byte files, at
the first record of the run. -/
theorem c5_witness :
    (Record.mk 0 0 (convert_int_to_float
      (pySlice (decodeEven w336) 40 (sample_size + 40)))).samples.length = 128 :=
  c5_amended fsLong recsLong (by decide) (by rfl)
    ⟨0, 0, convert_int_to_float (pySlice (decodeEven w336) 40 (sample_size + 40))⟩
    (List.mem_cons_self _ _)

/-- C6: for a decoded sample sequence with fewer than 168 samples, the
windowing step is a total slice — it raises no error — and the resulting
window (the record's sample list) holds `min 128 (n - 40)` samples,
strictly fewer than 128. -/
theorem c6_short_window (samples : List Int) (h : samples.length < 168) :
    (convert_int_to_float (pySlice samples 40 (sample_size + 40))).length
        = min 128 (samples.length - 40) ∧
    (convert_int_to_float (pySlice samples 40 (sample_size + 40))).length
        < 128 := by
  refine ⟨window_length samples, ?_⟩
  rw [window_length]
  omega

/-- C6, witness: the windowing of a 100-sample sequence. -/
theorem c6_witness :
    (convert_int_to_float
        (pySlice (List.replicate 100 (0 : Int)) 40 (sample_size + 40))).length
      = min 128 ((List.replicate 100 (0 : Int)).length - 40) ∧
    (convert_int_to_float
        (pySlice (List.replicate 100 (0 : Int)) 40 (sample_size + 40))).length
      < 128 :=
  c6_short_window (List.replicate 100 0) (by decide)

/-- C7: for a left-channel file, the right counterpart is the file named
by substituting the first `L` of the filename with `R` in the same
directory; if reading that counterpart cannot succeed the loop body never
succeeds (the run fails), and on success the emitted records are exactly
the pair `[left, right]`, the right one decoded from the counterpart's
bytes. -/
theorem c7_pairing (fs : FS) (folder : String) (i : Int) (e : Entry)
    (hf : e.isFile = true) (hL : startsWithL e.name.data = true) :
    ((∀ c, readFile fs folder (String.mk (replaceFirstL e.name.data)) ≠ .ok c) →
      ∀ recs, processFile fs folder i e ≠ .ok recs) ∧
    (∀ recs, processFile fs folder i e = .ok recs →
      ∃ rL rR raw2 enc2, recs = [rL, rR] ∧
        readFile fs folder (String.mk (replaceFirstL e.name.data)) = .ok raw2 ∧
        decodeBytes raw2 = .ok enc2 ∧
        rR.samples = convert_int_to_float (pySlice enc2 40 (sample_size + 40))) := by
  constructor
  · intro hmiss recs h
    obtain ⟨_, _, _, raw2, _, _, _, _, hread, _, _⟩ :=
      processFile_left_spec hf hL h
    exact hmiss raw2 hread
  · intro recs h
    obtain ⟨aziStr, azi, enc, raw2, enc2, hfind, hint, hdec, hread, hdec2, hrecs⟩ :=
      processFile_left_spec hf hL h
    exact ⟨_, _, raw2, enc2, hrecs, hread, hdec2, rfl⟩

/-- C7, witness: the pairing theorem on `fs7`, where both files hold two
bytes, so each record's window is empty. -/
theorem c7_witness :
    ∃ rL rR raw2 enc2,
      ([⟨0, 0, ([] : List ℚ)⟩, ⟨0, 0, ([] : List ℚ)⟩] : List Record) = [rL, rR] ∧
      readFile fs7 "elev0" (String.mk (replaceFirstL ("Le0a0.bin" : String).data))
        = .ok raw2 ∧
      decodeBytes raw2 = .ok enc2 ∧
      rR.samples = convert_int_to_float (pySlice enc2 40 (sample_size + 40)) :=
  (c7_pairing fs7 "elev0" 0 eL7 (by decide) (by decide)).2
    [⟨0, 0, []⟩, ⟨0, 0, []⟩] (by decide)

/-- C8, counterexample: on the completed run over `fs5` (two records of
10 samples each) the archive holds 96 bytes, not 520 × 2: records are
fixed-size 520-byte blocks only when every window is full. -/
theorem c8_counterexample :
    (runScript fs5).map (fun out => 4 * out.length) = .ok 96 ∧
    (runScan fs5).map List.length = .ok 2 ∧
    (96 : Nat) ≠ 520 * 2 :=
  ⟨by decide, by decide, by decide⟩

/-- C8, amended: the archive is exactly the concatenation of per-record
blocks `[elevation][azimuth][samples...]` of 4-byte float32 fields, with
no header, magic number, count field or terminator; provided every
regular file of the tree holds at least 336 bytes, every block is
4 + 4 + 128×4 = 520 bytes, the total size is 520 × record count, and the
record count is twice the number of left-channel files processed. -/
theorem c8_amended (fs : FS) (recs : List Record)
    (hlong : allFilesLong fs) (h : runScan fs = .ok recs) :
    runScript fs = .ok (save_data_to_file recs) ∧
    save_data_to_file recs
      = (recs.map (fun r => (r.elev : ℚ) :: (r.azi : ℚ) :: r.samples)).flatten ∧
    4 * (save_data_to_file recs).length = 520 * recs.length ∧
    recs.length = 2 * leftFileCount fs := by
  refine ⟨?_, rfl, ?_, runScan_length h⟩
  · unfold runScript
    rw [h]
  · rw [save_length_128 (runScan_samples hlong h)]
    ring

/-- C8, witness: the amended theorem on the tree of 336-byte files. -/
theorem c8_witness :
    runScript fsLong = .ok (save_data_to_file recsLong) ∧
    save_data_to_file recsLong
      = (recsLong.map (fun r => (r.elev : ℚ) :: (r.azi : ℚ) :: r.samples)).flatten ∧
    4 * (save_data_to_file recsLong).length = 520 * recsLong.length ∧
    recsLong.length = 2 * leftFileCount fsLong :=
  c8_amended fsLong recsLong (by decide) (by rfl)

/-- C9: no partial archive is ever written: if the traversal fails the
script propagates the error and produces no output, and any produced
output is the serialisation, in one final phase, of a fully completed
traversal. -/
theorem c9_no_partial_output (fs : FS) :
    (∀ m, runScan fs = .error m → runScript fs = .error m) ∧
    (∀ out, runScript fs = .ok out →
      ∃ recs, runScan fs = .ok recs ∧ out = save_data_to_file recs) := by
  constructor
  · intro m h
    unfold runScript
    rw [h]
  · intro out h
    unfold runScript at h
    split at h
    · exact Except.noConfusion h
    · rename_i recs hscan
      injection h with h
      exact ⟨recs, hscan, h.symm⟩

/-- C9, witness: on the empty tree the first elevation directory
`elev-40` is missing, the traversal fails, and no output is produced. -/
theorem c9_witness : runScript (FS.mk []) = .error "FileNotFoundError" :=
  (c9_no_partial_output (FS.mk [])).1 "FileNotFoundError" (by decide)

/-- C10: the two records of an emitted left/right pair carry identical
elevation (the directory's index) and identical azimuth: the right
record's azimuth is re-parsed from the original left-channel filename,
not from the substituted right-channel filename. -/
theorem c10_pair_same_position (fs : FS) (folder : String) (i : Int)
    (e : Entry) (recs : List Record)
    (hf : e.isFile = true) (hL : startsWithL e.name.data = true)
    (h : processFile fs folder i e = .ok recs) :
    ∃ rL rR, recs = [rL, rR] ∧
      rL.elev = i ∧ rR.elev = i ∧ rL.azi = rR.azi ∧
      ∃ aziStr, headE (findallEA e.name.data) = .ok aziStr ∧
        pyInt aziStr = .ok rL.azi := by
  obtain ⟨aziStr, azi, enc, raw2, enc2, hfind, hint, hdec, hread, hdec2, hrecs⟩ :=
    processFile_left_spec hf hL h
  exact ⟨_, _, hrecs, rfl, rfl, rfl, aziStr, hfind, hint⟩

/-- C10, witness: the pair theorem on `fs7`. -/
theorem c10_witness :
    ∃ rL rR,
      ([⟨0, 0, ([] : List ℚ)⟩, ⟨0, 0, ([] : List ℚ)⟩] : List Record) = [rL, rR] ∧
      rL.elev = 0 ∧ rR.elev = 0 ∧ rL.azi = rR.azi ∧
      ∃ aziStr, headE (findallEA ("Le0a0.bin" : String).data) = .ok aziStr ∧
        pyInt aziStr = .ok rL.azi :=
  c10_pair_same_position fs7 "elev0" 0 eL7 [⟨0, 0, []⟩, ⟨0, 0, []⟩]
    (by decide) (by decide) (by decide)

end DatConverter
